import Mathlib

/-!
# Verification of the feature-assembly and inference-orchestration logic

Shallow embedding of the two Streamlit applications `app.py` and `app1.py`
("盐城二手房智能分析器").  The embedded parts are the ones the specification's
claims are about:

* the option formatter `format_mapping_options_for_selectbox` (both files),
* the per-model feature completeness check, ordered row construction,
  prediction, label decoding and clamping (the inference orchestrators of
  both files, including their differing cross-model gating),
* the startup resource loading / validation pipeline.

Python scalar values appearing in the mapping dictionaries are embedded by
`PyVal` (integers and strings).  Python `dict`s are embedded as
insertion-ordered association lists with unique keys (`dictOfPairs` replays
Python's insert-or-update-in-place semantics).  Python's `sorted` is a stable
sort, hence extensionally equal to `List.insertionSort` on the same key; we
use `List.insertionSort` as its embedding.  Model objects, the scaler and
deserialization are external collaborators and are embedded as function
parameters returning `Except`, mirroring "returns or raises".
-/

namespace YanchengApp

/-- A Python scalar value: either an `int` or a `str`.  These are the value
types that occur in the mapping dictionaries of the application. -/
inductive PyVal where
  | int (n : Int)
  | str (s : String)
deriving DecidableEq

/-- Python `str(v)`. -/
def pyStr : PyVal → String
  | .int n => toString n
  | .str s => s

/-- `cs` is a nonempty sequence of ASCII digits. -/
def digitsOnly (cs : List Char) : Bool :=
  !cs.isEmpty && cs.all (fun c => c.isDigit)

/-- Numeric value of a digit sequence. -/
def digitsToNat (cs : List Char) : Nat :=
  cs.foldl (fun acc c => 10 * acc + (c.toNat - 48)) 0

/-- Python `int(v)`: the identity on `int`s; parses an optionally negated
digit string; `none` models the `ValueError` raised on anything else. -/
def pyToInt : PyVal → Option Int
  | .int n => some n
  | .str s =>
    match s.toList with
    | '-' :: cs =>
      if digitsOnly cs then some (-((digitsToNat cs : Nat) : Int)) else none
    | cs =>
      if digitsOnly cs then some ((digitsToNat cs : Nat) : Int) else none

/-- Python `str(v).isdigit()`: true for nonnegative `int`s (whose `str`
consists of digits) and for digit strings. -/
def pyIsDigit : PyVal → Bool
  | .int n => decide (0 ≤ n)
  | .str s => digitsOnly s.toList

/-- A Python object as it can reach `format_mapping_options_for_selectbox`
or the resource validation: a flat `dict`, a `list`, or anything else
(the `isinstance` checks only distinguish these shapes). -/
inductive PyObj where
  | dict (entries : List (PyVal × PyVal))
  | list (xs : List PyVal)
  | other (desc : String)
deriving DecidableEq

/-- Python `d.get(k)` on a flat dict embedded as an association list with
unique keys (first match). -/
def dictGet (m : List (PyVal × PyVal)) (k : PyVal) : Option PyVal :=
  (m.find? (fun p => decide (p.1 = k))).map (·.2)

/-- Python `d[k] = v` on an insertion-ordered dict: updates the existing
entry in place, else appends. -/
def dictInsert {α : Type} (d : List (PyVal × α)) (k : PyVal) (v : α) :
    List (PyVal × α) :=
  if d.any (fun p => decide (p.1 = k)) then
    d.map (fun p => if p.1 = k then (k, v) else p)
  else d ++ [(k, v)]

/-- Build a Python dict by inserting a list of key/value pairs in order. -/
def dictOfPairs {α : Type} (ps : List (PyVal × α)) : List (PyVal × α) :=
  ps.foldl (fun d p => dictInsert d p.1 p.2) []

/-- `int(item[1])` applied to every value of the mapping; `none` models the
`ValueError` that aborts `sorted(..., key=lambda item: int(item[1]))`. -/
def parseCodes : List (PyVal × PyVal) → Option (List Int)
  | [] => some []
  | p :: l =>
    match pyToInt p.2, parseCodes l with
    | some n, some ns => some (n :: ns)
    | _, _ => none

/-- The integer sort key `int(item[1])` (defaulted; only used where parsing
is known to succeed). -/
def intCodeD (p : PyVal × PyVal) : Int := (pyToInt p.2).getD 0

/-- The string sort key `str(item[1])` of `app1.py`'s fallback sort. -/
def strCode (p : PyVal × PyVal) : String := pyStr p.2

/-- Lexicographic comparison of code-point sequences: Python's `<=` on
`str`, which the fallback `sorted(..., key=lambda item: str(item[1]))`
orders by. -/
def charListLe : List Char → List Char → Bool
  | [], _ => true
  | _ :: _, [] => false
  | a :: as, b :: bs =>
    if a.toNat < b.toNat then true
    else if b.toNat < a.toNat then false
    else charListLe as bs

/-- Python's `<=` on strings. -/
def strLe (a b : String) : Bool := charListLe a.toList b.toList

/-- One formatted entry of `app.py`'s formatter:
`code_to_display_string[int(code)] = f"\x7bname\x7d (\x7bint(code)\x7d)"`. -/
def displayAppPy (p : PyVal × PyVal) : PyVal × String :=
  (.int (intCodeD p), pyStr p.1 ++ " (" ++ toString (intCodeD p) ++ ")")

/-- One formatted entry of `app1.py`'s formatter: the key is `int(code)`
when that parses and `str(code)` otherwise, and the display string uses the
original code (`f"\x7bname_str\x7d (\x7bcode\x7d)"`). -/
def displayApp1 (p : PyVal × PyVal) : PyVal × String :=
  (match pyToInt p.2 with
   | some ci => PyVal.int ci
   | none => PyVal.str (pyStr p.2),
   pyStr p.1 ++ " (" ++ pyStr p.2 ++ ")")

instance decRelIntCode :
    DecidableRel (fun a b : PyVal × PyVal => intCodeD a ≤ intCodeD b) :=
  fun _ _ => Int.decLe _ _

instance decRelStrCode :
    DecidableRel (fun a b : PyVal × PyVal => strLe (strCode a) (strCode b) = true) :=
  fun a b => inferInstanceAs (Decidable (strLe (strCode a) (strCode b) = true))

/-- `format_mapping_options_for_selectbox` of `app.py`: non-dict input gives
an empty dict; if every code parses as an integer the items are stably
sorted ascending by `int(code)` and inserted as `int(code) ↦ "name (code)"`;
if some `int(code)` raises, the `except` branch builds the comprehension
over only the entries whose value passes `str(v).isdigit()`, in insertion
order. -/
def formatAppPy : PyObj → List (PyVal × String)
  | .dict entries =>
    match parseCodes entries with
    | some _ =>
      dictOfPairs
        ((entries.insertionSort
            (fun a b => intCodeD a ≤ intCodeD b)).map displayAppPy)
    | none =>
      dictOfPairs ((entries.filter (fun p => pyIsDigit p.2)).map displayAppPy)
  | _ => []

/-- `format_mapping_options_for_selectbox` of `app1.py`: non-dict input gives
an empty dict; the items are stably sorted by `int(code)` when every code
parses, and by `str(code)` otherwise; each entry is keyed by `int(code)`
when that parses, else by `str(code)`.  (The outer `except (TypeError,
KeyError)` branch is unreachable in this value model: both sort keys are
total and all keys hashable.) -/
def formatApp1 : PyObj → List (PyVal × String)
  | .dict entries =>
    let sortedItems :=
      match parseCodes entries with
      | some _ =>
        entries.insertionSort (fun a b => intCodeD a ≤ intCodeD b)
      | none =>
        entries.insertionSort (fun a b => strLe (strCode a) (strCode b) = true)
    dictOfPairs (sortedItems.map displayApp1)
  | _ => []

/-! ## Inference orchestration -/

/-- The merged `NamedValue` table `all_inputs`: feature name to scalar value
(numbers and categorical codes; embedded uniformly as rationals), as an
insertion-ordered association list. -/
abbrev Table := List (String × ℚ)

/-- `f in all_inputs` / `all_inputs[f]`: first-match lookup. -/
def lookupVal (t : Table) (f : String) : Option ℚ :=
  (t.find? (fun p => decide (p.1 = f))).map (·.2)

/-- `\x7b**a, **b\x7d`: dict merge where `b`'s entries win on key clashes. -/
def mergeTables (a b : Table) : Table := b ++ a

/-- The required features absent from the table, in feature-schema order.
`app1.py` collects exactly this list (`missing_market_feats` is filled by
iterating over the schema).  `app.py` instead computes
`set(needed) - set(input_data.keys())` — the same names but as an unordered
Python set — so for `app.py` only this list's elements are
program-determined, not its order (see `missingFeatsSet`). -/
def missingFeats (t : Table) (needed : List String) : List String :=
  needed.filter (fun f => (lookupVal t f).isNone)

/-- `set(needed) - set(input_data.keys())`: the unordered collection of
missing names that `app.py` carries in its `KeyError`.  A Python set exposes
no ordering (string hashing is per-process randomized), so only the element
set is program-determined; it is embedded as a `Finset`. -/
def missingFeatsSet (t : Table) (needed : List String) : Finset String :=
  (missingFeats t needed).toFinset

/-- The single-row feature vector `pd.DataFrame([input_data])[needed]`: the
values read in exactly the schema's order.  (The default is never exercised:
rows are only built after the completeness check.) -/
def orderedRow (t : Table) (needed : List String) : List ℚ :=
  needed.map (fun f => (lookupVal t f).getD 0)

/-- The tagged outcome of one model's prediction attempt. -/
inductive Outcome (α : Type) where
  | notAttempted
  | insufficientInput (missing : List String)
  | failed (msg : String)
  | success (v : α)
deriving DecidableEq

/-- Whether the model's `try` block ran to completion. -/
def Outcome.isSuccess {α : Type} : Outcome α → Bool
  | .success _ => true
  | _ => false

/-- `output_map.get(int(pred_code), f"预测编码无效 (\x7bpred_code\x7d)")`: the
label decoding of `app.py` (in `app1.py` the integral case is identical, with
placeholder text `未知编码`).  The prediction code is looked up directly as a
key of the output mapping; a missing key yields the placeholder string. -/
def decodeLabel (outMap : List (PyVal × PyVal)) (code : Int) : PyVal :=
  match dictGet outMap (.int code) with
  | some label => label
  | none => .str ("预测编码无效 (" ++ toString code ++ ")")

/-- The external model and scaler handles.  `Except.error` models a raised
exception in `predict` / `transform`. -/
structure Models where
  marketPredict : List ℚ → Except String Int
  priceLevelPredict : List ℚ → Except String Int
  regressionPredict : List ℚ → Except String ℚ
  scalerTransform : List ℚ → Except String (List ℚ)

/-- The immutable reference data used by one orchestration run: the three
feature schemas (`feature_names['market' | 'price_level' | 'regression']`)
and the two output mappings (`mappings['市场类别' | '是否高于区域均价']`). -/
structure Resources where
  marketFeatures : List String
  priceLevelFeatures : List String
  regressionFeatures : List String
  marketOutputMap : List (PyVal × PyVal)
  priceLevelOutputMap : List (PyVal × PyVal)

/-- One classifier's `try` block: completeness check (a missing feature
raises `KeyError` before `predict` is reached), ordered row construction on
the raw row, `predict`, label decode.  The `insufficientInput` payload is
the schema-order missing list; for `app.py` only its element set stands for
the program's value (see `missingFeats` / `missingFeatsSet`). -/
def runClassifier (t : Table) (needed : List String)
    (predict : List ℚ → Except String Int)
    (outMap : List (PyVal × PyVal)) : Outcome PyVal :=
  let missing := missingFeats t needed
  if missing = [] then
    match predict (orderedRow t needed) with
    | .error e => .failed e
    | .ok code => .success (decodeLabel outMap code)
  else .insufficientInput missing

/-- The regression `try` block: completeness check, ordered row, `scaler.transform`,
`predict`, and the clamp `max(0, unit_price_pred)`. -/
def runRegression (t : Table) (needed : List String)
    (scaler : List ℚ → Except String (List ℚ))
    (predict : List ℚ → Except String ℚ) : Outcome ℚ :=
  let missing := missingFeats t needed
  if missing = [] then
    match scaler (orderedRow t needed) with
    | .error e => .failed e
    | .ok scaled =>
      match predict scaled with
      | .error e => .failed e
      | .ok v => .success (max 0 v)
  else .insufficientInput missing

/-- The three per-model outcomes of one orchestration run. -/
structure RunResult where
  market : Outcome PyVal
  priceLevel : Outcome PyVal
  unitPrice : Outcome ℚ
deriving DecidableEq

/-- The orchestration of `app.py`: any failure in the market step clears
`prediction_possible`, skipping the price-level step, and any failure in
either classifier step skips the regression step. -/
def runAppPy (res : Resources) (ms : Models) (t : Table) : RunResult :=
  let m := runClassifier t res.marketFeatures ms.marketPredict res.marketOutputMap
  if m.isSuccess then
    let p := runClassifier t res.priceLevelFeatures ms.priceLevelPredict
      res.priceLevelOutputMap
    if p.isSuccess then
      ⟨m, p,
        runRegression t res.regressionFeatures ms.scalerTransform
          ms.regressionPredict⟩
    else ⟨m, p, .notAttempted⟩
  else ⟨m, .notAttempted, .notAttempted⟩

/-- The orchestration of `app1.py`: a market failure clears
`prediction_possible`, skipping the price-level step, but the regression
step is attempted unconditionally (a price-level failure deliberately does
not clear the flag, and the regression `try` is not guarded by it). -/
def runApp1 (res : Resources) (ms : Models) (t : Table) : RunResult :=
  let m := runClassifier t res.marketFeatures ms.marketPredict res.marketOutputMap
  let p :=
    if m.isSuccess then
      runClassifier t res.priceLevelFeatures ms.priceLevelPredict
        res.priceLevelOutputMap
    else .notAttempted
  let r := runRegression t res.regressionFeatures ms.scalerTransform
    ms.regressionPredict
  ⟨m, p, r⟩

theorem runAppPy_market (res : Resources) (ms : Models) (t : Table) :
    (runAppPy res ms t).market =
      runClassifier t res.marketFeatures ms.marketPredict res.marketOutputMap := by
  simp only [runAppPy]
  cases (runClassifier t res.marketFeatures ms.marketPredict
      res.marketOutputMap).isSuccess <;>
    cases (runClassifier t res.priceLevelFeatures ms.priceLevelPredict
      res.priceLevelOutputMap).isSuccess <;> simp

theorem runAppPy_priceLevel (res : Resources) (ms : Models) (t : Table) :
    (runAppPy res ms t).priceLevel =
      (if (runClassifier t res.marketFeatures ms.marketPredict
            res.marketOutputMap).isSuccess then
        runClassifier t res.priceLevelFeatures ms.priceLevelPredict
          res.priceLevelOutputMap
      else .notAttempted) := by
  simp only [runAppPy]
  cases (runClassifier t res.marketFeatures ms.marketPredict
      res.marketOutputMap).isSuccess <;>
    cases (runClassifier t res.priceLevelFeatures ms.priceLevelPredict
      res.priceLevelOutputMap).isSuccess <;> simp

theorem runAppPy_unitPrice (res : Resources) (ms : Models) (t : Table) :
    (runAppPy res ms t).unitPrice =
      (if (runClassifier t res.marketFeatures ms.marketPredict
              res.marketOutputMap).isSuccess &&
          (runClassifier t res.priceLevelFeatures ms.priceLevelPredict
              res.priceLevelOutputMap).isSuccess then
        runRegression t res.regressionFeatures ms.scalerTransform
          ms.regressionPredict
      else .notAttempted) := by
  simp only [runAppPy]
  cases (runClassifier t res.marketFeatures ms.marketPredict
      res.marketOutputMap).isSuccess <;>
    cases (runClassifier t res.priceLevelFeatures ms.priceLevelPredict
      res.priceLevelOutputMap).isSuccess <;> simp

theorem runApp1_market (res : Resources) (ms : Models) (t : Table) :
    (runApp1 res ms t).market =
      runClassifier t res.marketFeatures ms.marketPredict res.marketOutputMap :=
  rfl

theorem runApp1_priceLevel (res : Resources) (ms : Models) (t : Table) :
    (runApp1 res ms t).priceLevel =
      (if (runClassifier t res.marketFeatures ms.marketPredict
            res.marketOutputMap).isSuccess then
        runClassifier t res.priceLevelFeatures ms.priceLevelPredict
          res.priceLevelOutputMap
      else .notAttempted) := rfl

theorem runApp1_unitPrice (res : Resources) (ms : Models) (t : Table) :
    (runApp1 res ms t).unitPrice =
      runRegression t res.regressionFeatures ms.scalerTransform
        ms.regressionPredict := rfl

/-- The value of the variable `unit_price_pred` after the run: initialized to
the sentinel `-1` (`-1.0` in `app1.py`), overwritten only on a completed
regression. -/
def unitPriceVar (r : RunResult) : ℚ :=
  match r.unitPrice with
  | .success v => v
  | _ => -1

/-- The error messages one model's outcome contributes to `error_messages`. -/
def modelErrors {α : Type} : Outcome α → List String
  | .insufficientInput missing =>
    ["缺少输入特征: " ++ String.intercalate ", " missing]
  | .failed e => [e]
  | _ => []

/-- The `error_messages` list accumulated over the three model steps. -/
def errorMessages (r : RunResult) : List String :=
  modelErrors r.market ++ modelErrors r.priceLevel ++ modelErrors r.unitPrice

/-- `app.py` renders the unit price as a success iff the whole result area is
shown (`if not error_messages`) and `unit_price_pred != -1`. -/
def displayedAsSuccessAppPy (r : RunResult) : Prop :=
  errorMessages r = [] ∧ unitPriceVar r ≠ -1

/-- `app1.py` renders the unit price as a success iff
`regression_attempted and unit_price_pred != -1.0`; `regression_attempted`
is set exactly when the regression `try` block runs to completion. -/
def displayedAsSuccessApp1 (r : RunResult) : Prop :=
  r.unitPrice.isSuccess = true ∧ unitPriceVar r ≠ -1

/-! ## Startup: resource loading and validation -/

def MARKET_MODEL_PATH : String := "market_segment_lgbm_model.joblib"
def PRICE_LEVEL_MODEL_PATH : String := "price_level_rf_model.joblib"
def REGRESSION_MODEL_PATH : String := "unit_price_rf_model.joblib"
def SCALER_PATH : String := "regression_scaler.joblib"
def FEATURE_NAMES_PATH : String := "feature_names.joblib"
def MAPPINGS_PATH : String := "mappings.joblib"

/-- The `required_files` list of `load_resources`. -/
def required_files : List String :=
  [MARKET_MODEL_PATH, PRICE_LEVEL_MODEL_PATH, REGRESSION_MODEL_PATH,
   SCALER_PATH, FEATURE_NAMES_PATH, MAPPINGS_PATH]

/-- `required_mappings`: the mapping keys validated after loading. -/
def requiredMappingKeys : List String :=
  ["方位", "楼层", "所属区域", "房龄", "市场类别", "是否高于区域均价"]

/-- `required_features`: the feature-list keys validated after loading. -/
def requiredFeatureKeys : List String := ["market", "price_level", "regression"]

/-- The sequential `joblib.load` loop inside the single `try`: the first
deserialization error aborts the loop, so only it is observed.
`loadErr f = some e` models `joblib.load(f)` raising with message `e`. -/
def firstLoadError (loadErr : String → Option String) :
    List String → Option String
  | [] => none
  | f :: fs =>
    match loadErr f with
    | some e => some e
    | none => firstLoadError loadErr fs

/-- A value of the outer resource dicts (`mappings` / `feature_names`): a
flat mapping dict, a feature-name list, or something of the wrong type. -/
inductive ResObj where
  | dict (m : List (PyVal × PyVal))
  | list (xs : List String)
  | other (desc : String)
deriving DecidableEq

/-- Lookup in a string-keyed resource dict. -/
def lookupObj (m : List (String × ResObj)) (k : String) : Option ResObj :=
  (m.find? (fun p => decide (p.1 = k))).map (·.2)

/-- `isinstance(mappings.get(key), dict)`, with `None` for a missing key. -/
def isDictObj : Option ResObj → Bool
  | some (.dict _) => true
  | _ => false

/-- `isinstance(feature_names.get(key), list)`, with `None` for a missing key. -/
def isListObj : Option ResObj → Bool
  | some (.list _) => true
  | _ => false

/-- The `missing_or_invalid` enumeration of `app1.py` (`app.py` emits one
`st.error` per offending key — the same enumeration): every required mapping
key that is absent or not a dict, then every required feature-list key that
is absent or not a list. -/
def missing_or_invalid (mappings feature_names : List (String × ResObj)) :
    List String :=
  (requiredMappingKeys.filter (fun k => !isDictObj (lookupObj mappings k))).map
      (fun k => "映射 '" ++ k ++ "' (来自 " ++ MAPPINGS_PATH ++ ")") ++
  (requiredFeatureKeys.filter
      (fun k => !isListObj (lookupObj feature_names k))).map
      (fun k => "特征列表 '" ++ k ++ "' (来自 " ++ FEATURE_NAMES_PATH ++ ")")

/-- The observable result of the startup sequence: `st.stop()` with the
reported error items, or the app proceeding to build inference requests. -/
inductive InitResult where
  | halted (errors : List String)
  | ready
deriving DecidableEq

/-- The startup pipeline (`load_resources` followed by the content checks):
missing files are all enumerated; otherwise the artifacts are loaded
sequentially and the first deserialization error alone is reported as
`加载错误: …`; otherwise every missing/invalid mapping or feature-list key is
enumerated; only with none of these does the app proceed. -/
def startupApp1 (fileExists : String → Bool) (loadErr : String → Option String)
    (mappings feature_names : List (String × ResObj)) : InitResult :=
  let missing_files := required_files.filter (fun f => !fileExists f)
  if missing_files = [] then
    match firstLoadError loadErr required_files with
    | some e => .halted ["加载错误: " ++ e]
    | none =>
      let bad := missing_or_invalid mappings feature_names
      if bad = [] then .ready else .halted bad
  else .halted missing_files

/-! ## Shared lemmas about table lookup -/

theorem lookupVal_append (a b : Table) (f : String) :
    lookupVal (a ++ b) f = (lookupVal a f).or (lookupVal b f) := by
  unfold lookupVal
  rw [List.find?_append]
  cases a.find? (fun p => decide (p.1 = f)) <;> simp

theorem lookupVal_eq_some_imp_mem {t : Table} {f : String} {v : ℚ}
    (h : lookupVal t f = some v) : f ∈ t.map Prod.fst := by
  unfold lookupVal at h
  cases hfind : t.find? (fun p => decide (p.1 = f)) with
  | none => rw [hfind] at h; exact absurd h (by simp)
  | some p =>
    have hp : p.1 = f := by simpa using List.find?_some hfind
    exact hp ▸ List.mem_map_of_mem Prod.fst (List.mem_of_find?_eq_some hfind)

theorem lookupVal_merge_comm (cat num : Table)
    (hdisj : ∀ g ∈ cat.map Prod.fst, lookupVal num g = none) (f : String) :
    lookupVal (mergeTables cat num) f = lookupVal (mergeTables num cat) f := by
  unfold mergeTables
  rw [lookupVal_append, lookupVal_append]
  cases hc : lookupVal cat f with
  | none => cases lookupVal num f <;> simp [hc]
  | some v => rw [hdisj f (lookupVal_eq_some_imp_mem hc)]; simp [hc]

theorem runClassifier_lookup_ext {t t' : Table} (needed : List String)
    (h : ∀ g, lookupVal t g = lookupVal t' g)
    (predict : List ℚ → Except String Int) (outMap : List (PyVal × PyVal)) :
    runClassifier t needed predict outMap =
      runClassifier t' needed predict outMap := by
  have hm : missingFeats t needed = missingFeats t' needed := by
    unfold missingFeats; congr 1; funext g; rw [h g]
  have hr : orderedRow t needed = orderedRow t' needed := by
    unfold orderedRow; congr 1; funext g; rw [h g]
  simp only [runClassifier, hm, hr]

/-! ## C1 -/

/-- C1: whenever the merged `NamedValue` table contains every feature a
model's schema requires, the single-row vector handed to that model's
predict call has one value per schema entry, and its `i`-th value is exactly
the table's value for the `i`-th schema feature — the schema's order, not
the merge order; swapping the merge order of the categorical and numeric
tables (their key sets being disjoint) changes neither the row nor the
model step's outcome. -/
theorem C1_row_follows_schema_order (cat num : Table) (needed : List String)
    (hdisj : ∀ g ∈ cat.map Prod.fst, lookupVal num g = none)
    (hall : missingFeats (mergeTables cat num) needed = []) :
    (orderedRow (mergeTables cat num) needed).length = needed.length ∧
    (∀ i (hi : i < needed.length),
      lookupVal (mergeTables cat num) (needed.get ⟨i, hi⟩) =
        some ((orderedRow (mergeTables cat num) needed).get
          ⟨i, by simpa [orderedRow] using hi⟩)) ∧
    orderedRow (mergeTables cat num) needed =
      orderedRow (mergeTables num cat) needed ∧
    ∀ predict outMap,
      runClassifier (mergeTables cat num) needed predict outMap =
        runClassifier (mergeTables num cat) needed predict outMap := by
  refine ⟨by simp [orderedRow], ?_, ?_, ?_⟩
  · intro i hi
    have hmem : needed.get ⟨i, hi⟩ ∈ needed := needed.get_mem i hi
    have hnone := (List.filter_eq_nil_iff.mp hall) _ hmem
    simp only [orderedRow, List.get_eq_getElem, List.getElem_map]
    cases hl : lookupVal (mergeTables cat num) needed[i] with
    | none => exact absurd (by simp only [List.get_eq_getElem]; simp [hl]) hnone
    | some v => simp [hl]
  · unfold orderedRow; congr 1; funext g
    rw [lookupVal_merge_comm cat num hdisj g]
  · intro predict outMap
    exact runClassifier_lookup_ext needed (lookupVal_merge_comm cat num hdisj)
      predict outMap

def catDemo : Table := [("方位", 3), ("楼层", 1)]
def numDemo : Table := [("面积(㎡)", 100), ("室", 3)]
def schemaDemo : List String := ["面积(㎡)", "方位", "室"]

theorem C1_row_follows_schema_order_witness :
    (∀ g ∈ catDemo.map Prod.fst, lookupVal numDemo g = none) ∧
    missingFeats (mergeTables catDemo numDemo) schemaDemo = [] ∧
    orderedRow (mergeTables catDemo numDemo) schemaDemo =
      orderedRow (mergeTables numDemo catDemo) schemaDemo :=
  ⟨by decide, by decide,
    (C1_row_follows_schema_order catDemo numDemo schemaDemo (by decide)
      (by decide)).2.2.1⟩

/-! ## C3 -/

/-- C3 counterexample: with an empty input table and the two-feature schema
`["面积(㎡)", "方位"]`, both features are missing and the model step yields
`insufficientInput` before any predict.  But the missing names are not
carried "as a sorted/stable list": `app1.py`'s list is the schema-order
list, which is not in sorted order (`"方位"` precedes `"面积(㎡)"`
lexicographically); and `app.py` carries only the unordered set of the
names, whose value is identical for either ordering of the two names, so it
determines no list order at all. -/
theorem C3_counterexample :
    runClassifier [] ["面积(㎡)", "方位"] (fun _ => .ok 1) [] =
        .insufficientInput ["面积(㎡)", "方位"] ∧
    ¬ List.Sorted (fun a b => strLe a b = true) ["面积(㎡)", "方位"] ∧
    missingFeatsSet [] ["面积(㎡)", "方位"] =
      (["方位", "面积(㎡)"] : List String).toFinset ∧
    (["面积(㎡)", "方位"] : List String) ≠ ["方位", "面积(㎡)"] := by
  refine ⟨by decide, by decide, by decide, by decide⟩

/-- C3 amended: if at least one required feature is missing, the model's
step yields `insufficientInput` carrying exactly the missing names — a name
is reported iff it is required and absent, no false positives or negatives,
both for `app1.py`'s list and for `app.py`'s set — and the model's predict
(and the scaler) are never consulted: the outcome is the same for every
predict function.  `app1.py`'s list is stable (a sublist of the schema);
`app.py` carries only the unordered set of the same names, with no
program-determined order. -/
theorem C3_amended_missing_names (t : Table) (needed : List String)
    (h : missingFeats t needed ≠ []) :
    (∀ predict predict' outMap outMap',
      runClassifier t needed predict outMap =
          Outcome.insufficientInput (missingFeats t needed) ∧
        runClassifier t needed predict outMap =
          runClassifier t needed predict' outMap') ∧
    (∀ scaler scaler' predict predict',
      runRegression t needed scaler predict =
          Outcome.insufficientInput (missingFeats t needed) ∧
        runRegression t needed scaler predict =
          runRegression t needed scaler' predict') ∧
    (∀ f, f ∈ missingFeats t needed ↔ f ∈ needed ∧ lookupVal t f = none) ∧
    (∀ f, f ∈ missingFeatsSet t needed ↔ f ∈ needed ∧ lookupVal t f = none) ∧
    (missingFeats t needed).Sublist needed := by
  refine ⟨?_, ?_, ?_, ?_, List.filter_sublist _⟩
  · intro predict predict' outMap outMap'
    constructor <;> simp [runClassifier, h]
  · intro scaler scaler' predict predict'
    constructor <;> simp [runRegression, h]
  · intro f
    simp [missingFeats, List.mem_filter, Option.isNone_iff_eq_none]
  · intro f
    rw [missingFeatsSet, List.mem_toFinset]
    simp [missingFeats, List.mem_filter, Option.isNone_iff_eq_none]

theorem C3_amended_missing_names_witness :
    missingFeats [("面积(㎡)", (100 : ℚ))] ["面积(㎡)", "方位"] ≠ [] ∧
    runClassifier [("面积(㎡)", (100 : ℚ))] ["面积(㎡)", "方位"]
        (fun _ => .ok 1) [] = .insufficientInput ["方位"] ∧
    "方位" ∈ missingFeatsSet [("面积(㎡)", (100 : ℚ))] ["面积(㎡)", "方位"] := by
  refine ⟨by decide, ?_, ?_⟩
  · have h := (C3_amended_missing_names [("面积(㎡)", (100 : ℚ))]
        ["面积(㎡)", "方位"] (by decide)).1 (fun _ => .ok 1) (fun _ => .ok 1) [] []
    have hm : missingFeats [("面积(㎡)", (100 : ℚ))] ["面积(㎡)", "方位"] =
        ["方位"] := by decide
    rw [h.1, hm]
  · exact ((C3_amended_missing_names [("面积(㎡)", (100 : ℚ))]
        ["面积(㎡)", "方位"] (by decide)).2.2.2.1 "方位").mpr
      ⟨by decide, by decide⟩

/-! ## C4 -/

/-- C4 counterexample: the claim's own example fails on the code.  The
decoder looks the numeric output code up directly as a key of the output
mapping; against the name→code mapping `\x7b"高端": 2\x7d` the code `2` is
not a key, so decoding yields the placeholder, not `"高端"`.  (The code
never inverts the mapping — it expects the output mapping to be stored
code→name.) -/
theorem C4_counterexample :
    decodeLabel [(.str "高端", .int 2)] 2 = .str "预测编码无效 (2)" ∧
    decodeLabel [(.str "高端", .int 2)] 2 ≠ .str "高端" := by
  constructor <;> decide

/-- C4 amended: decoding treats the output mapping as a direct code→name
table.  For every mapping in which the integer code is a key, decoding
yields the mapped name; for a code that is not a key, decoding yields a
placeholder string containing the code's text; decoding is total (never
raises). -/
theorem C4_amended_direct_lookup (m : List (PyVal × PyVal)) (code : Int) :
    (∀ label, dictGet m (.int code) = some label → decodeLabel m code = label) ∧
    (dictGet m (.int code) = none →
      ∃ pre post, decodeLabel m code = .str (pre ++ toString code ++ post)) := by
  constructor
  · intro label hl; simp [decodeLabel, hl]
  · intro hn; exact ⟨"预测编码无效 (", ")", by simp [decodeLabel, hn]⟩

theorem C4_amended_direct_lookup_witness :
    dictGet [(.int 2, .str "高端")] (.int 2) = some (.str "高端") ∧
    decodeLabel [(.int 2, .str "高端")] 2 = .str "高端" ∧
    dictGet [(.int 2, .str "高端")] (.int 7) = none ∧
    ∃ pre post, decodeLabel [(.int 2, .str "高端")] 7 =
      .str (pre ++ toString (7 : Int) ++ post) := by
  refine ⟨by decide, ?_, by decide, ?_⟩
  · exact (C4_amended_direct_lookup [(.int 2, .str "高端")] 2).1 (.str "高端")
      (by decide)
  · exact (C4_amended_direct_lookup [(.int 2, .str "高端")] 7).2 (by decide)

/-! ## C5 -/

/-- C5: when the unit-price regression's predict call returns `v`, the
reported success value is `max 0 v`: it is always nonnegative, and a
negative model output is reported as `0`. -/
theorem C5_clamp_nonneg (t : Table) (needed : List String)
    (scaler : List ℚ → Except String (List ℚ))
    (predict : List ℚ → Except String ℚ) (row' : List ℚ) (v : ℚ)
    (hmiss : missingFeats t needed = [])
    (hs : scaler (orderedRow t needed) = .ok row')
    (hp : predict row' = .ok v) :
    runRegression t needed scaler predict = .success (max 0 v) ∧
    0 ≤ max 0 v ∧ (v < 0 → max 0 v = 0) := by
  refine ⟨?_, le_max_left 0 v, fun hv => max_eq_left hv.le⟩
  simp [runRegression, hmiss, hs, hp]

theorem C5_clamp_nonneg_witness :
    runRegression [("面积(㎡)", (100 : ℚ))] ["面积(㎡)"]
      (fun r => .ok r) (fun _ => .ok (-50)) = .success 0 := by
  have h := C5_clamp_nonneg [("面积(㎡)", (100 : ℚ))] ["面积(㎡)"]
    (fun r => .ok r) (fun _ => .ok (-50))
    (orderedRow [("面积(㎡)", (100 : ℚ))] ["面积(㎡)"]) (-50)
    (by decide) rfl rfl
  rw [h.1, h.2.2 (by norm_num)]

/-! ## C2 -/

def demoRes : Resources :=
  { marketFeatures := ["面积(㎡)"]
    priceLevelFeatures := ["面积(㎡)"]
    regressionFeatures := ["面积(㎡)"]
    marketOutputMap := [(.int 1, .str "高端")]
    priceLevelOutputMap := [(.int 1, .str "是")] }

def demoTable : Table := [("面积(㎡)", 100)]

def okModels : Models :=
  { marketPredict := fun _ => .ok 1
    priceLevelPredict := fun _ => .ok 1
    regressionPredict := fun _ => .ok 5
    scalerTransform := fun r => .ok r }

def failMarketModels : Models :=
  { okModels with marketPredict := fun _ => .error "boom" }

/-- C2 counterexample: with a valid input, forcing only the market-segment
predict call to raise changes the other two models' outcomes in `app.py`:
neither the price-level nor the unit-price prediction is attempted, whereas
with the identical non-failing models both return successes. -/
theorem C2_counterexample :
    (runAppPy demoRes failMarketModels demoTable).priceLevel =
        .notAttempted ∧
    (runAppPy demoRes okModels demoTable).priceLevel = .success (.str "是") ∧
    (runAppPy demoRes failMarketModels demoTable).unitPrice = .notAttempted ∧
    (runAppPy demoRes okModels demoTable).unitPrice = .success 5 := by
  refine ⟨rfl, rfl, rfl, ?_⟩
  show Outcome.success (max 0 5) = Outcome.success 5
  norm_num

/-- C2 amended: isolation holds only downstream of the cross-model gating
both files implement.  Swapping the regression predict never changes the two
classifier outcomes (both files); in `app1.py` swapping the price-level
predict never changes the market or unit-price outcomes, and the regression
is attempted unconditionally; but when the market step does not succeed, the
price-level step is not attempted in either file, and in `app.py` the
regression is not attempted either. -/
theorem C2_amended_gated_isolation (res : Resources) (ms : Models) (t : Table)
    (fr : List ℚ → Except String ℚ) (fp : List ℚ → Except String Int) :
    ((runAppPy res { ms with regressionPredict := fr } t).market =
        (runAppPy res ms t).market ∧
      (runAppPy res { ms with regressionPredict := fr } t).priceLevel =
        (runAppPy res ms t).priceLevel ∧
      (runApp1 res { ms with regressionPredict := fr } t).market =
        (runApp1 res ms t).market ∧
      (runApp1 res { ms with regressionPredict := fr } t).priceLevel =
        (runApp1 res ms t).priceLevel) ∧
    ((runApp1 res { ms with priceLevelPredict := fp } t).market =
        (runApp1 res ms t).market ∧
      (runApp1 res { ms with priceLevelPredict := fp } t).unitPrice =
        (runApp1 res ms t).unitPrice) ∧
    ((runAppPy res ms t).market.isSuccess = false →
      (runAppPy res ms t).priceLevel = .notAttempted ∧
        (runAppPy res ms t).unitPrice = .notAttempted) ∧
    ((runApp1 res ms t).market.isSuccess = false →
      (runApp1 res ms t).priceLevel = .notAttempted) ∧
    (runApp1 res ms t).unitPrice =
      runRegression t res.regressionFeatures ms.scalerTransform
        ms.regressionPredict := by
  refine ⟨?_, ?_, ?_, ?_, rfl⟩
  · simp [runAppPy_market, runAppPy_priceLevel, runApp1_market,
      runApp1_priceLevel]
  · simp [runApp1_market, runApp1_unitPrice]
  · intro h1
    rw [runAppPy_market] at h1
    rw [runAppPy_priceLevel, runAppPy_unitPrice, h1]
    simp
  · intro h1
    rw [runApp1_market] at h1
    rw [runApp1_priceLevel, h1]
    simp

theorem C2_amended_gated_isolation_witness :
    (runAppPy demoRes failMarketModels demoTable).market.isSuccess = false ∧
    (runAppPy demoRes failMarketModels demoTable).priceLevel =
        .notAttempted ∧
    (runAppPy demoRes failMarketModels demoTable).unitPrice = .notAttempted ∧
    (runApp1 demoRes failMarketModels demoTable).priceLevel =
        .notAttempted := by
  have h := C2_amended_gated_isolation demoRes failMarketModels demoTable
    (fun _ => .ok 0) (fun _ => .ok 0)
  have hms : (runAppPy demoRes failMarketModels demoTable).market.isSuccess =
      false := rfl
  exact ⟨hms, (h.2.2.1 hms).1, (h.2.2.1 hms).2, h.2.2.2.1 hms⟩

/-! ## C6 -/

/-- C6: the classifier steps never consult the scaler — their outcomes are
unchanged under any replacement of the scaling transform, and on success the
market outcome is the decode of the market predict applied to the raw
ordered row; the regression step feeds the ordered row through the scaler
and applies its predict to the scaler's output (clamped on report).  This
holds for both orchestrations (in `app.py` the regression step is reached
only when both classifier steps succeeded). -/
theorem C6_scaler_only_regression (res : Resources) (ms : Models) (t : Table)
    (g : List ℚ → Except String (List ℚ)) :
    ((runAppPy res { ms with scalerTransform := g } t).market =
        (runAppPy res ms t).market ∧
      (runAppPy res { ms with scalerTransform := g } t).priceLevel =
        (runAppPy res ms t).priceLevel ∧
      (runApp1 res { ms with scalerTransform := g } t).market =
        (runApp1 res ms t).market ∧
      (runApp1 res { ms with scalerTransform := g } t).priceLevel =
        (runApp1 res ms t).priceLevel) ∧
    (∀ c, missingFeats t res.marketFeatures = [] →
      ms.marketPredict (orderedRow t res.marketFeatures) = .ok c →
      (runAppPy res ms t).market =
          .success (decodeLabel res.marketOutputMap c) ∧
        (runApp1 res ms t).market =
          .success (decodeLabel res.marketOutputMap c)) ∧
    (∀ row' v, missingFeats t res.regressionFeatures = [] →
      ms.scalerTransform (orderedRow t res.regressionFeatures) = .ok row' →
      ms.regressionPredict row' = .ok v →
      (runApp1 res ms t).unitPrice = .success (max 0 v) ∧
        ((runAppPy res ms t).market.isSuccess = true →
          (runAppPy res ms t).priceLevel.isSuccess = true →
          (runAppPy res ms t).unitPrice = .success (max 0 v))) := by
  refine ⟨?_, ?_, ?_⟩
  · simp [runAppPy_market, runAppPy_priceLevel, runApp1_market,
      runApp1_priceLevel]
  · intro c hmiss hok
    have hm : runClassifier t res.marketFeatures ms.marketPredict
        res.marketOutputMap = .success (decodeLabel res.marketOutputMap c) := by
      simp [runClassifier, hmiss, hok]
    exact ⟨by rw [runAppPy_market, hm], by rw [runApp1_market, hm]⟩
  · intro row' v hmiss hs hp
    have hr : runRegression t res.regressionFeatures ms.scalerTransform
        ms.regressionPredict = .success (max 0 v) := by
      simp [runRegression, hmiss, hs, hp]
    constructor
    · rw [runApp1_unitPrice, hr]
    · intro h1 h2
      rw [runAppPy_market] at h1
      rw [runAppPy_priceLevel, h1] at h2
      simp only [if_true] at h2
      rw [runAppPy_unitPrice, h1, h2]
      simpa using hr

theorem C6_scaler_only_regression_witness :
    (runAppPy demoRes okModels demoTable).market =
        .success (decodeLabel demoRes.marketOutputMap 1) ∧
    (runApp1 demoRes okModels demoTable).unitPrice = .success (max 0 5) ∧
    (runAppPy demoRes okModels demoTable).unitPrice = .success (max 0 5) := by
  have h := C6_scaler_only_regression demoRes okModels demoTable
    (fun _ => .error "unused")
  refine ⟨(h.2.1 1 (by decide) rfl).1, ?_, ?_⟩
  · exact (h.2.2 (orderedRow demoTable demoRes.regressionFeatures) 5
      (by decide) rfl rfl).1
  · exact (h.2.2 (orderedRow demoTable demoRes.regressionFeatures) 5
      (by decide) rfl rfl).2 rfl rfl

/-! ## C9 -/

def demoLoadErr : String → Option String :=
  fun f =>
    if f = MARKET_MODEL_PATH then some "market artifact corrupt"
    else if f = PRICE_LEVEL_MODEL_PATH then some "price artifact corrupt"
    else none

/-- C9 counterexample: with every required file present but two artifacts
malformed (both `joblib.load`s raise), startup halts reporting only the
first load error; the second malformed artifact is not enumerated, contrary
to the claim that every missing or invalid item is reported. -/
theorem C9_counterexample :
    startupApp1 (fun _ => true) demoLoadErr [] [] =
        .halted ["加载错误: market artifact corrupt"] ∧
    "加载错误: price artifact corrupt" ∉
      ["加载错误: market artifact corrupt"] := by
  constructor
  · decide
  · decide

/-- C9 amended: startup halts before any inference request on every missing
or malformed resource, and it enumerates every missing file and every
missing/invalid mapping or feature-list key; but when all files exist and
some artifact fails to deserialize, only the first load error is reported.
The app proceeds iff no file is missing, no load fails, and no required key
is missing or invalid. -/
theorem C9_amended_enumeration (fileExists : String → Bool)
    (loadErr : String → Option String)
    (mappings feature_names : List (String × ResObj)) :
    (required_files.filter (fun f => !fileExists f) ≠ [] →
      startupApp1 fileExists loadErr mappings feature_names =
        .halted (required_files.filter (fun f => !fileExists f))) ∧
    (∀ e, required_files.filter (fun f => !fileExists f) = [] →
      firstLoadError loadErr required_files = some e →
      startupApp1 fileExists loadErr mappings feature_names =
        .halted ["加载错误: " ++ e]) ∧
    (required_files.filter (fun f => !fileExists f) = [] →
      firstLoadError loadErr required_files = none →
      missing_or_invalid mappings feature_names ≠ [] →
      startupApp1 fileExists loadErr mappings feature_names =
        .halted (missing_or_invalid mappings feature_names)) ∧
    (∀ k, k ∈ requiredMappingKeys → isDictObj (lookupObj mappings k) = false →
      ("映射 '" ++ k ++ "' (来自 " ++ MAPPINGS_PATH ++ ")") ∈
        missing_or_invalid mappings feature_names) ∧
    (∀ k, k ∈ requiredFeatureKeys →
      isListObj (lookupObj feature_names k) = false →
      ("特征列表 '" ++ k ++ "' (来自 " ++ FEATURE_NAMES_PATH ++ ")") ∈
        missing_or_invalid mappings feature_names) ∧
    (startupApp1 fileExists loadErr mappings feature_names = .ready ↔
      required_files.filter (fun f => !fileExists f) = [] ∧
      firstLoadError loadErr required_files = none ∧
      missing_or_invalid mappings feature_names = []) := by
  refine ⟨?_, ?_, ?_, ?_, ?_, ?_⟩
  · intro h; simp [startupApp1, h]
  · intro e h he; simp [startupApp1, h, he]
  · intro h hn hbad; simp [startupApp1, h, hn, hbad]
  · intro k hk hd
    exact List.mem_append_left _
      (List.mem_map_of_mem _ (List.mem_filter.mpr ⟨hk, by simp [hd]⟩))
  · intro k hk hd
    exact List.mem_append_right _
      (List.mem_map_of_mem _ (List.mem_filter.mpr ⟨hk, by simp [hd]⟩))
  · constructor
    · intro h
      by_cases h1 : required_files.filter (fun f => !fileExists f) = []
      · cases hE : firstLoadError loadErr required_files with
        | some e => simp [startupApp1, h1, hE] at h
        | none =>
          by_cases h3 : missing_or_invalid mappings feature_names = []
          · exact ⟨h1, rfl, h3⟩
          · simp [startupApp1, h1, hE, h3] at h
      · simp [startupApp1, h1] at h
    · rintro ⟨h1, h2, h3⟩
      simp [startupApp1, h1, h2, h3]

def demoNoFiles : String → Bool :=
  fun f => !(f = FEATURE_NAMES_PATH || f = MAPPINGS_PATH)

theorem C9_amended_enumeration_witness :
    startupApp1 demoNoFiles (fun _ => none) [] [] =
      .halted [FEATURE_NAMES_PATH, MAPPINGS_PATH] := by
  have hf : required_files.filter (fun f => !demoNoFiles f) =
      [FEATURE_NAMES_PATH, MAPPINGS_PATH] := by decide
  have h := (C9_amended_enumeration demoNoFiles (fun _ => none) [] []).1
    (by rw [hf]; decide)
  rw [h, hf]

/-! ## C10 -/

theorem modelErrors_nil_of_isSuccess {α : Type} {o : Outcome α}
    (h : o.isSuccess = true) : modelErrors o = [] := by
  cases o with
  | notAttempted => rfl
  | success v => rfl
  | insufficientInput m => exact absurd h (by simp [Outcome.isSuccess])
  | failed e => exact absurd h (by simp [Outcome.isSuccess])

theorem runRegression_success_nonneg {t : Table} {needed : List String}
    {scaler : List ℚ → Except String (List ℚ)}
    {predict : List ℚ → Except String ℚ} {v : ℚ}
    (h : runRegression t needed scaler predict = Outcome.success v) :
    0 ≤ v := by
  simp only [runRegression] at h
  split at h
  · split at h
    · simp at h
    · split at h
      · simp at h
      · simp only [Outcome.success.injEq] at h
        exact h ▸ le_max_left 0 _
  · simp at h

theorem appPy_unitPrice_nonneg (res : Resources) (ms : Models) (t : Table)
    (v : ℚ) (h : (runAppPy res ms t).unitPrice = Outcome.success v) :
    0 ≤ v := by
  rw [runAppPy_unitPrice] at h
  split at h
  · exact runRegression_success_nonneg h
  · simp at h

theorem unitPriceVar_spec (r : RunResult)
    (hn : ∀ v, r.unitPrice = Outcome.success v → 0 ≤ v) :
    (unitPriceVar r = -1 ↔ r.unitPrice.isSuccess = false) ∧
    (r.unitPrice.isSuccess = true → 0 ≤ unitPriceVar r) := by
  cases hu : r.unitPrice with
  | success v =>
    have hv := hn v hu
    have hne : v ≠ -1 := by intro he; rw [he] at hv; norm_num at hv
    constructor
    · simp [unitPriceVar, hu, Outcome.isSuccess, hne]
    · intro _; simpa [unitPriceVar, hu] using hv
  | notAttempted => simp [unitPriceVar, hu, Outcome.isSuccess]
  | insufficientInput m => simp [unitPriceVar, hu, Outcome.isSuccess]
  | failed e => simp [unitPriceVar, hu, Outcome.isSuccess]

theorem appPy_errors_of_unitPrice_success (res : Resources) (ms : Models)
    (t : Table) (h : (runAppPy res ms t).unitPrice.isSuccess = true) :
    errorMessages (runAppPy res ms t) = [] := by
  have hU := h
  rw [runAppPy_unitPrice] at hU
  by_cases hb : ((runClassifier t res.marketFeatures ms.marketPredict
        res.marketOutputMap).isSuccess &&
      (runClassifier t res.priceLevelFeatures ms.priceLevelPredict
        res.priceLevelOutputMap).isSuccess) = true
  · have hb' : (runClassifier t res.marketFeatures ms.marketPredict
          res.marketOutputMap).isSuccess = true ∧
        (runClassifier t res.priceLevelFeatures ms.priceLevelPredict
          res.priceLevelOutputMap).isSuccess = true := by simpa using hb
    have h1 := hb'.1
    have h2 := hb'.2
    unfold errorMessages
    rw [runAppPy_market, runAppPy_priceLevel, runAppPy_unitPrice,
      if_pos h1, if_pos hb]
    rw [if_pos hb] at hU
    rw [modelErrors_nil_of_isSuccess h1, modelErrors_nil_of_isSuccess h2,
      modelErrors_nil_of_isSuccess hU]
    rfl
  · rw [if_neg hb] at hU
    exact absurd hU (by simp [Outcome.isSuccess])

/-- C10: across both orchestrations, the `unit_price_pred` variable holds the
sentinel `-1` exactly when the regression step did not complete; a completed
regression reports a clamped value `≥ 0`, so the sentinel cannot collide
with a legitimately predicted value; and the unit price is rendered as a
success exactly when the variable differs from the sentinel. -/
theorem C10_sentinel_iff (res : Resources) (ms : Models) (t : Table) :
    (unitPriceVar (runAppPy res ms t) = -1 ↔
      (runAppPy res ms t).unitPrice.isSuccess = false) ∧
    (unitPriceVar (runApp1 res ms t) = -1 ↔
      (runApp1 res ms t).unitPrice.isSuccess = false) ∧
    ((runAppPy res ms t).unitPrice.isSuccess = true →
      0 ≤ unitPriceVar (runAppPy res ms t)) ∧
    (displayedAsSuccessAppPy (runAppPy res ms t) ↔
      unitPriceVar (runAppPy res ms t) ≠ -1) ∧
    (displayedAsSuccessApp1 (runApp1 res ms t) ↔
      unitPriceVar (runApp1 res ms t) ≠ -1) := by
  have hnPy : ∀ v, (runAppPy res ms t).unitPrice = Outcome.success v → 0 ≤ v :=
    fun v h => appPy_unitPrice_nonneg res ms t v h
  have hn1 : ∀ v, (runApp1 res ms t).unitPrice = Outcome.success v → 0 ≤ v := by
    intro v h
    rw [runApp1_unitPrice] at h
    exact runRegression_success_nonneg h
  obtain ⟨hiffPy, hlePy⟩ := unitPriceVar_spec (runAppPy res ms t) hnPy
  obtain ⟨hiff1, _⟩ := unitPriceVar_spec (runApp1 res ms t) hn1
  refine ⟨hiffPy, hiff1, hlePy, ?_, ?_⟩
  · unfold displayedAsSuccessAppPy
    constructor
    · rintro ⟨-, hv⟩; exact hv
    · intro hv
      cases hS : (runAppPy res ms t).unitPrice.isSuccess with
      | false => exact absurd (hiffPy.mpr hS) hv
      | true => exact ⟨appPy_errors_of_unitPrice_success res ms t hS, hv⟩
  · unfold displayedAsSuccessApp1
    constructor
    · rintro ⟨-, hv⟩; exact hv
    · intro hv
      cases hS : (runApp1 res ms t).unitPrice.isSuccess with
      | false => exact absurd (hiff1.mpr hS) hv
      | true => exact ⟨rfl, hv⟩

theorem C10_sentinel_iff_witness :
    (runAppPy demoRes okModels demoTable).unitPrice.isSuccess = true ∧
    0 ≤ unitPriceVar (runAppPy demoRes okModels demoTable) ∧
    displayedAsSuccessAppPy (runAppPy demoRes okModels demoTable) ∧
    unitPriceVar (runAppPy demoRes failMarketModels demoTable) = -1 := by
  have h := C10_sentinel_iff demoRes okModels demoTable
  have hS : (runAppPy demoRes okModels demoTable).unitPrice.isSuccess =
      true := rfl
  have hle := h.2.2.1 hS
  have hne : unitPriceVar (runAppPy demoRes okModels demoTable) ≠ -1 := by
    intro he; rw [he] at hle; norm_num at hle
  have h' := C10_sentinel_iff demoRes failMarketModels demoTable
  exact ⟨hS, hle, h.2.2.2.1.mpr hne, h'.1.mpr rfl⟩

/-! ## Formatter lemmas -/

theorem parseCodes_eq_some {l : List (PyVal × PyVal)} {cs : List Int}
    (h : parseCodes l = some cs) :
    cs = l.map intCodeD ∧ ∀ p ∈ l, (pyToInt p.2).isSome = true := by
  induction l generalizing cs with
  | nil =>
    simp only [parseCodes, Option.some.injEq] at h
    simp [← h]
  | cons p l ih =>
    simp only [parseCodes] at h
    cases hp : pyToInt p.2 with
    | none => rw [hp] at h; simp at h
    | some n =>
      rw [hp] at h
      cases hrest : parseCodes l with
      | none => rw [hrest] at h; simp at h
      | some ns =>
        rw [hrest] at h
        simp only [Option.some.injEq] at h
        obtain ⟨hcs, hall⟩ := ih hrest
        subst h
        refine ⟨by simp [intCodeD, hp, hcs], ?_⟩
        intro q hq
        rcases List.mem_cons.mp hq with rfl | hmem
        · simp [hp]
        · exact hall q hmem

theorem parseCodes_eq_none {l : List (PyVal × PyVal)} {p : PyVal × PyVal}
    (hp : p ∈ l) (h : pyToInt p.2 = none) : parseCodes l = none := by
  induction l with
  | nil => cases hp
  | cons q l ih =>
    simp only [parseCodes]
    rcases List.mem_cons.mp hp with rfl | hmem
    · rw [h]
    · rw [ih hmem]; cases pyToInt q.2 <;> rfl

theorem dictInsert_of_not_mem {α : Type} {d : List (PyVal × α)} {k : PyVal}
    (h : k ∉ d.map Prod.fst) (v : α) : dictInsert d k v = d ++ [(k, v)] := by
  unfold dictInsert
  rw [if_neg]
  intro hx
  obtain ⟨p, hpmem, hpk⟩ := List.any_eq_true.mp hx
  exact h (List.mem_map.mpr ⟨p, hpmem, by simpa using hpk⟩)

theorem foldl_dictInsert_append {α : Type} (ps : List (PyVal × α)) :
    ∀ acc : List (PyVal × α),
      (∀ k ∈ acc.map Prod.fst, k ∉ ps.map Prod.fst) →
      (ps.map Prod.fst).Nodup →
      ps.foldl (fun d p => dictInsert d p.1 p.2) acc = acc ++ ps := by
  induction ps with
  | nil => intro acc _ _; simp
  | cons p ps ih =>
    intro acc hdisj hnodup
    simp only [List.foldl_cons]
    have hnot : p.1 ∉ acc.map Prod.fst := fun hmem => hdisj p.1 hmem (by simp)
    rw [dictInsert_of_not_mem hnot]
    have hdisj' : ∀ k ∈ (acc ++ [(p.1, p.2)]).map Prod.fst,
        k ∉ ps.map Prod.fst := by
      intro k hk
      rw [List.map_append] at hk
      rcases List.mem_append.mp hk with hk1 | hk2
      · intro hmem
        exact hdisj k hk1 (List.mem_cons_of_mem _ hmem)
      · have hk3 : k = p.1 := by simpa using hk2
        subst hk3
        exact (List.nodup_cons.mp (by simpa using hnodup)).1
    have hnodup' : (ps.map Prod.fst).Nodup :=
      (List.nodup_cons.mp (by simpa using hnodup)).2
    rw [ih (acc ++ [(p.1, p.2)]) hdisj' hnodup']
    simp

theorem dictOfPairs_eq_self {α : Type} (ps : List (PyVal × α))
    (h : (ps.map Prod.fst).Nodup) : dictOfPairs ps = ps := by
  simpa [dictOfPairs] using foldl_dictInsert_append ps [] (by simp) h

instance instTotalIntCode :
    IsTotal (PyVal × PyVal) (fun a b => intCodeD a ≤ intCodeD b) :=
  ⟨fun _ _ => Int.le_total _ _⟩

instance instTransIntCode :
    IsTrans (PyVal × PyVal) (fun a b => intCodeD a ≤ intCodeD b) :=
  ⟨fun _ _ _ hab hbc => le_trans hab hbc⟩

theorem charListLe_total : ∀ as bs : List Char,
    charListLe as bs = true ∨ charListLe bs as = true
  | [], _ => .inl rfl
  | _ :: _, [] => .inr rfl
  | a :: as, b :: bs => by
    simp only [charListLe]
    rcases Nat.lt_trichotomy a.toNat b.toNat with h | h | h
    · left; simp [h]
    · have h1 : ¬a.toNat < b.toNat := by omega
      have h2 : ¬b.toNat < a.toNat := by omega
      simp only [if_neg h1, if_neg h2]
      exact charListLe_total as bs
    · right; simp [h]

theorem charListLe_trans : ∀ as bs cs : List Char,
    charListLe as bs = true → charListLe bs cs = true →
    charListLe as cs = true
  | [], _, _ => fun _ _ => rfl
  | _ :: _, [], _ => fun h _ => by simp [charListLe] at h
  | _ :: _, _ :: _, [] => fun _ h => by simp [charListLe] at h
  | a :: as, b :: bs, c :: cs => fun h1 h2 => by
    simp only [charListLe] at h1 h2 ⊢
    by_cases hab : a.toNat < b.toNat
    · by_cases hbc : b.toNat < c.toNat
      · simp [lt_trans hab hbc]
      · rw [if_neg hbc] at h2
        by_cases hcb : c.toNat < b.toNat
        · rw [if_pos hcb] at h2; exact absurd h2 (by simp)
        · simp [show a.toNat < c.toNat by omega]
    · rw [if_neg hab] at h1
      by_cases hba : b.toNat < a.toNat
      · rw [if_pos hba] at h1; exact absurd h1 (by simp)
      · rw [if_neg hba] at h1
        by_cases hbc : b.toNat < c.toNat
        · simp [show a.toNat < c.toNat by omega]
        · rw [if_neg hbc] at h2
          by_cases hcb : c.toNat < b.toNat
          · rw [if_pos hcb] at h2; exact absurd h2 (by simp)
          · rw [if_neg hcb] at h2
            rw [if_neg (show ¬a.toNat < c.toNat by omega),
              if_neg (show ¬c.toNat < a.toNat by omega)]
            exact charListLe_trans as bs cs h1 h2

instance instTotalStrCode :
    IsTotal (PyVal × PyVal)
      (fun a b => strLe (strCode a) (strCode b) = true) :=
  ⟨fun _ _ => charListLe_total _ _⟩

instance instTransStrCode :
    IsTrans (PyVal × PyVal)
      (fun a b => strLe (strCode a) (strCode b) = true) :=
  ⟨fun _ _ _ hab hbc => charListLe_trans _ _ _ hab hbc⟩

/-- The integer behind a formatted entry's dict key. -/
def keyInt (q : PyVal × String) : Int :=
  match q.1 with
  | .int n => n
  | .str _ => 0

theorem pyInt_injective : Function.Injective PyVal.int := by
  intro a b h
  injection h

theorem keyInt_displayApp1 {p : PyVal × PyVal}
    (h : (pyToInt p.2).isSome = true) :
    (displayApp1 p).1 = PyVal.int (intCodeD p) := by
  cases hs : pyToInt p.2 with
  | none => rw [hs] at h; simp at h
  | some c => simp [displayApp1, intCodeD, hs]

theorem keys_nodup_generic {entries : List (PyVal × PyVal)} {cs : List Int}
    (disp : PyVal × PyVal → PyVal × String)
    (hparse : parseCodes entries = some cs) (hnodup : cs.Nodup)
    (hkey : ∀ p ∈ entries, (disp p).1 = PyVal.int (intCodeD p)) :
    (((entries.insertionSort
        (fun a b => intCodeD a ≤ intCodeD b)).map disp).map Prod.fst).Nodup := by
  obtain ⟨hcs, -⟩ := parseCodes_eq_some hparse
  have hperm : (entries.insertionSort
      (fun a b => intCodeD a ≤ intCodeD b)).Perm entries :=
    List.perm_insertionSort _ entries
  have h1 : (((entries.insertionSort
      (fun a b => intCodeD a ≤ intCodeD b)).map disp).map Prod.fst) =
      (entries.insertionSort (fun a b => intCodeD a ≤ intCodeD b)).map
        (fun p => PyVal.int (intCodeD p)) := by
    rw [List.map_map]
    exact List.map_congr_left (fun p hp => hkey p (hperm.mem_iff.mp hp))
  rw [h1, List.Perm.nodup_iff (hperm.map _)]
  have h3 : entries.map (fun p => PyVal.int (intCodeD p)) = cs.map PyVal.int := by
    rw [hcs, List.map_map]; rfl
  rw [h3]
  exact hnodup.map pyInt_injective

theorem formatAppPy_dict_of_parse {entries : List (PyVal × PyVal)}
    {cs : List Int} (hparse : parseCodes entries = some cs)
    (hnodup : cs.Nodup) :
    formatAppPy (.dict entries) =
      (entries.insertionSort
        (fun a b => intCodeD a ≤ intCodeD b)).map displayAppPy := by
  simp only [formatAppPy, hparse]
  exact dictOfPairs_eq_self _
    (keys_nodup_generic displayAppPy hparse hnodup (fun p _ => rfl))

theorem formatApp1_dict_of_parse {entries : List (PyVal × PyVal)}
    {cs : List Int} (hparse : parseCodes entries = some cs)
    (hnodup : cs.Nodup) :
    formatApp1 (.dict entries) =
      (entries.insertionSort
        (fun a b => intCodeD a ≤ intCodeD b)).map displayApp1 := by
  simp only [formatApp1, hparse]
  exact dictOfPairs_eq_self _
    (keys_nodup_generic displayApp1 hparse hnodup
      (fun p hp => keyInt_displayApp1 ((parseCodes_eq_some hparse).2 p hp)))

theorem sorted_keys_generic {entries : List (PyVal × PyVal)} {cs : List Int}
    (disp : PyVal × PyVal → PyVal × String)
    (hparse : parseCodes entries = some cs) (hnodup : cs.Nodup)
    (hkey : ∀ p ∈ entries, (disp p).1 = PyVal.int (intCodeD p)) :
    List.Sorted (· < ·)
      (((entries.insertionSort
          (fun a b => intCodeD a ≤ intCodeD b)).map disp).map keyInt) := by
  obtain ⟨hcs, -⟩ := parseCodes_eq_some hparse
  have hperm : (entries.insertionSort
      (fun a b => intCodeD a ≤ intCodeD b)).Perm entries :=
    List.perm_insertionSort _ entries
  have h1 : (((entries.insertionSort
      (fun a b => intCodeD a ≤ intCodeD b)).map disp).map keyInt) =
      (entries.insertionSort (fun a b => intCodeD a ≤ intCodeD b)).map
        intCodeD := by
    rw [List.map_map]
    refine List.map_congr_left ?_
    intro p hp
    have hk := hkey p (hperm.mem_iff.mp hp)
    show keyInt (disp p) = intCodeD p
    simp [keyInt, hk]
  rw [h1]
  have hle : List.Sorted (· ≤ ·)
      ((entries.insertionSort
        (fun a b => intCodeD a ≤ intCodeD b)).map intCodeD) :=
    List.Pairwise.map intCodeD (fun _ _ h => h)
      (List.sorted_insertionSort _ entries)
  have hnd : ((entries.insertionSort
      (fun a b => intCodeD a ≤ intCodeD b)).map intCodeD).Nodup := by
    rw [List.Perm.nodup_iff (hperm.map _), ← hcs]
    exact hnodup
  exact hle.lt_of_le hnd

/-! ## C7 -/

/-- C7: for every mapping all of whose codes parse as integers (with the
codes pairwise distinct, as the data model requires of an invertible
mapping), both files' option formatters return the whole table —
a permutation of the formatted entries — keyed in strictly ascending numeric
code order, each entry being the pair `int(code) ↦ "<name> (<code>)"`. -/
theorem C7_formatter_sorted (entries : List (PyVal × PyVal)) (cs : List Int)
    (hparse : parseCodes entries = some cs) (hnodup : cs.Nodup) :
    ((formatAppPy (.dict entries)).Perm (entries.map displayAppPy) ∧
      List.Sorted (· < ·) ((formatAppPy (.dict entries)).map keyInt) ∧
      ∀ q ∈ formatAppPy (.dict entries), ∃ name code c,
        (name, code) ∈ entries ∧ pyToInt code = some c ∧
        q = (.int c, pyStr name ++ " (" ++ toString c ++ ")")) ∧
    ((formatApp1 (.dict entries)).Perm (entries.map displayApp1) ∧
      List.Sorted (· < ·) ((formatApp1 (.dict entries)).map keyInt) ∧
      ∀ q ∈ formatApp1 (.dict entries), ∃ name code c,
        (name, code) ∈ entries ∧ pyToInt code = some c ∧
        q = (.int c, pyStr name ++ " (" ++ pyStr code ++ ")")) := by
  obtain ⟨hcs, hallsome⟩ := parseCodes_eq_some hparse
  have hperm : (entries.insertionSort
      (fun a b => intCodeD a ≤ intCodeD b)).Perm entries :=
    List.perm_insertionSort _ entries
  have heqPy := formatAppPy_dict_of_parse hparse hnodup
  have heq1 := formatApp1_dict_of_parse hparse hnodup
  refine ⟨⟨?_, ?_, ?_⟩, ?_, ?_, ?_⟩
  · rw [heqPy]; exact hperm.map _
  · rw [heqPy]
    exact sorted_keys_generic displayAppPy hparse hnodup (fun p _ => rfl)
  · intro q hq
    rw [heqPy] at hq
    obtain ⟨p, hpmem, hpq⟩ := List.mem_map.mp hq
    have hp' : p ∈ entries := hperm.mem_iff.mp hpmem
    have hps := hallsome p hp'
    cases hs : pyToInt p.2 with
    | none => rw [hs] at hps; simp at hps
    | some c =>
      refine ⟨p.1, p.2, c, by simpa using hp', hs, ?_⟩
      rw [← hpq]
      simp [displayAppPy, intCodeD, hs]
  · rw [heq1]; exact hperm.map _
  · rw [heq1]
    exact sorted_keys_generic displayApp1 hparse hnodup
      (fun p hp => keyInt_displayApp1 (hallsome p hp))
  · intro q hq
    rw [heq1] at hq
    obtain ⟨p, hpmem, hpq⟩ := List.mem_map.mp hq
    have hp' : p ∈ entries := hperm.mem_iff.mp hpmem
    have hps := hallsome p hp'
    cases hs : pyToInt p.2 with
    | none => rw [hs] at hps; simp at hps
    | some c =>
      refine ⟨p.1, p.2, c, by simpa using hp', hs, ?_⟩
      rw [← hpq]
      simp [displayApp1, intCodeD, hs]

def demoMapping : List (PyVal × PyVal) :=
  [(.str "南", .int 2), (.str "北", .int 1), (.str "东", .int 0)]

theorem C7_formatter_sorted_witness :
    parseCodes demoMapping = some [2, 1, 0] ∧
    formatAppPy (.dict demoMapping) =
      [(.int 0, "东 (0)"), (.int 1, "北 (1)"), (.int 2, "南 (2)")] ∧
    List.Sorted (· < ·) ((formatAppPy (.dict demoMapping)).map keyInt) := by
  refine ⟨by decide, by decide, ?_⟩
  exact (C7_formatter_sorted demoMapping [2, 1, 0] (by decide) (by decide)).1.2.1

/-! ## C8 -/

/-- C8 counterexample: on a mapping with one unparseable code
(`a ↦ "x", b ↦ "2"`), `app.py`'s formatter does not fall back to
lexicographic string ordering of the whole table: its `except` branch keeps
only the digit-parsable entries, so the output has a single entry and the
`"x"` entry is dropped entirely. -/
theorem C8_counterexample :
    formatAppPy (.dict [(.str "a", .str "x"), (.str "b", .str "2")]) =
        [(.int 2, "b (2)")] ∧
    (formatAppPy (.dict [(.str "a", .str "x"),
        (.str "b", .str "2")])).length ≠ 2 := by
  constructor <;> decide

/-- C8 amended: on a non-dict input both formatters return the empty table
(and, being total functions, never raise).  When some code fails to parse as
an integer, `app1.py` falls back to sorting the whole table by the
lexicographic order of the codes' string forms, while `app.py` instead keeps
only the entries whose code is a nonnegative integer or digit string, in
original insertion order, dropping the rest. -/
theorem C8_amended_fallbacks :
    (∀ s, formatAppPy (.other s) = [] ∧ formatApp1 (.other s) = []) ∧
    (∀ xs, formatAppPy (.list xs) = [] ∧ formatApp1 (.list xs) = []) ∧
    (∀ entries : List (PyVal × PyVal), parseCodes entries = none →
      ((((entries.insertionSort
            (fun a b => strLe (strCode a) (strCode b) = true)).map displayApp1).map
              Prod.fst).Nodup →
        formatApp1 (.dict entries) =
            (entries.insertionSort
              (fun a b => strLe (strCode a) (strCode b) = true)).map displayApp1 ∧
          (formatApp1 (.dict entries)).Perm (entries.map displayApp1)) ∧
        List.Sorted (fun a b => strLe a b = true)
          ((entries.insertionSort
            (fun a b => strLe (strCode a) (strCode b) = true)).map strCode)) ∧
    (∀ entries : List (PyVal × PyVal), parseCodes entries = none →
      ((((entries.filter (fun p => pyIsDigit p.2)).map displayAppPy).map
          Prod.fst).Nodup →
        formatAppPy (.dict entries) =
          (entries.filter (fun p => pyIsDigit p.2)).map displayAppPy)) := by
  refine ⟨fun s => ⟨rfl, rfl⟩, fun xs => ⟨rfl, rfl⟩, ?_, ?_⟩
  · intro entries hnone
    have heq : formatApp1 (.dict entries) =
        dictOfPairs ((entries.insertionSort
          (fun a b => strLe (strCode a) (strCode b) = true)).map displayApp1) := by
      simp only [formatApp1, hnone]
    constructor
    · intro hk
      have heq' : formatApp1 (.dict entries) =
          (entries.insertionSort
            (fun a b => strLe (strCode a) (strCode b) = true)).map displayApp1 := by
        rw [heq]; exact dictOfPairs_eq_self _ hk
      refine ⟨heq', ?_⟩
      rw [heq']
      exact (List.perm_insertionSort _ entries).map _
    · exact List.Pairwise.map strCode (fun _ _ h => h)
        (List.sorted_insertionSort _ entries)
  · intro entries hnone hk
    simp only [formatAppPy, hnone]
    exact dictOfPairs_eq_self _ hk

theorem C8_amended_fallbacks_witness :
    formatAppPy (.other "not a dict") = [] ∧
    formatApp1 (.dict [(.str "a", .str "x"), (.str "b", .str "2")]) =
      ([(.str "a", .str "x"), (.str "b", .str "2")].insertionSort
        (fun a b => strLe (strCode a) (strCode b) = true)).map displayApp1 ∧
    formatAppPy (.dict [(.str "a", .str "x"), (.str "b", .str "2")]) =
      ([(.str "a", .str "x"), (.str "b", .str "2")].filter
        (fun p => pyIsDigit p.2)).map displayAppPy := by
  refine ⟨(C8_amended_fallbacks.1 "not a dict").1, ?_, ?_⟩
  · exact ((C8_amended_fallbacks.2.2.1 _ (by decide)).1 (by decide)).1
  · exact C8_amended_fallbacks.2.2.2 _ (by decide) (by decide)

end YanchengApp
